import Mathlib

/-!
# rgb2gray_slicer: a shallow embedding of `rgb2gray_slicer.cpp`

The program opens a video file, and for each channel value 0, 1, 2 runs `mainLoop`, which decodes
the frames one by one, converts each to grayscale, and writes it to
`./frames_out_chan_<channel>/frame_out<frame_num>.pgm`.

The embedding passes the three file-scope variables (`out_filepath`, `frame_num`, `channel`)
together with the environment (pending key codes, the disk, a log of the library calls made)
explicitly as a `World`.  Rasters hold their samples as natural numbers; `unsigned int` arithmetic
is taken modulo `2 ^ 32`.  Window management (`namedWindow`, `imshow`, `destroyWindow`) and console
output leave the modelled state untouched and are not represented.

The library calls are modelled as follows: decoding is deterministic (a file decodes to a fixed
list of frames); `cap.set(CAP_PROP_CHANNEL, _)` has no effect on a capture backed by a file;
`cvtColor` with `COLOR_BGR2GRAY` computes the library's fixed-point luma of 8-bit samples;
`waitKey` returns the next pending key code, or `-1`; `imwrite` stores the raster at the path;
`std::to_string` renders an `unsigned int` in decimal.
-/

namespace Rgb2GraySlicer

/-! ## Constants of the source -/

/-- The status passed to `exit` when the video cannot be opened (`#define SYSTEM_ERROR (-1)`). -/
def SYSTEM_ERROR : Int := -1

/-- The key code that interrupts a pass (`#define ESCAPE_KEY (27)`). -/
def ESCAPE_KEY : Int := 27

/-- The number of values of an `unsigned int` (32 bits). -/
def UINT_RANGE : Nat := 4294967296

/-! ## Rasters -/

/-- One pixel of a decoded colour frame: 8-bit samples in blue, green, red order. -/
structure BGR where
  b : Nat
  g : Nat
  r : Nat
deriving DecidableEq, Repr

/-- The sample of colour band `c` of a pixel (0 = blue, 1 = green, 2 = red). -/
def BGR.band (p : BGR) (c : Nat) : Nat :=
  match c with
  | 0 => p.b
  | 1 => p.g
  | _ => p.r

/-- A raster (`cv::Mat`) with elements of type `α`, stored row-major. -/
structure Mat (α : Type) where
  rows : Nat
  cols : Nat
  data : List α
deriving DecidableEq, Repr

/-- The raster with no pixels, as left by a failed decode or by `release`. -/
def Mat.released {α : Type} : Mat α := ⟨0, 0, []⟩

/-- Emptiness test `Mat::empty()`: no data or no elements. -/
def Mat.empty {α : Type} (m : Mat α) : Bool :=
  m.data.isEmpty || m.rows * m.cols == 0

/-- Fixed-point weight of the blue band in the library's 8-bit luma conversion. -/
def B2Y : Nat := 3735
/-- Fixed-point weight of the green band in the library's 8-bit luma conversion. -/
def G2Y : Nat := 19235
/-- Fixed-point weight of the red band in the library's 8-bit luma conversion. -/
def R2Y : Nat := 9798
/-- Number of fractional bits of the luma weights (`B2Y + G2Y + R2Y = 2 ^ 15`). -/
def GRAY_SHIFT : Nat := 15

/-- The luma of one pixel: `0.114 B + 0.587 G + 0.299 R` in fixed point, rounded to nearest and
stored as an 8-bit sample. -/
def luma (p : BGR) : Nat :=
  ((p.b * B2Y + p.g * G2Y + p.r * R2Y + 2 ^ (GRAY_SHIFT - 1)) / 2 ^ GRAY_SHIFT) % 256

/-- The call `cvtColor(src, dst, COLOR_BGR2GRAY)`: a single-channel raster of the same size whose
pixels are the luma of the source pixels. -/
def cvtColor_BGR2GRAY (src : Mat BGR) : Mat Nat :=
  { rows := src.rows, cols := src.cols, data := src.data.map luma }

/-! ## The video source -/

/-- A video capture handle: whether it was opened, and the frames not yet decoded. -/
structure VideoCapture where
  opened : Bool
  frames : List (Mat BGR)
deriving DecidableEq, Repr

/-- The constructor `VideoCapture cap(file_path)`: `fs file_path` is the sequence of frames the
file decodes to, or `none` when the file cannot be opened. -/
def VideoCapture.open (fs : String → Option (List (Mat BGR))) (file_path : String) :
    VideoCapture :=
  match fs file_path with
  | some frames => { opened := true, frames := frames }
  | none => { opened := false, frames := [] }

/-- The test `cap.isOpened()`. -/
def VideoCapture.isOpened (cap : VideoCapture) : Bool := cap.opened

/-- The call `cap.set(CAP_PROP_CHANNEL, channel)`.  The property selects the input of a capture
device; a capture backed by a file does not support it and is left as it was. -/
def VideoCapture.setChannel (cap : VideoCapture) (_channel : Nat) : VideoCapture := cap

/-- The statement `cap >> frame_src`: the next frame, or an empty raster once the stream is
exhausted. -/
def VideoCapture.read (cap : VideoCapture) : Mat BGR × VideoCapture :=
  match cap.frames with
  | [] => (Mat.released, cap)
  | f :: rest => (f, { cap with frames := rest })

/-! ## The world -/

/-- The library calls that the claims observe. -/
inductive Event where
  /-- Construction of a capture on the given path: one per channel pass. -/
  | capOpen (file_path : String)
  /-- One `cap >> frame_src`. -/
  | capRead
  /-- One `waitKey(10)` with the key code it returned. -/
  | keyPoll (key : Int)
  /-- One `imwrite(path, img)`. -/
  | imwrite (path : String) (img : Mat Nat)
deriving DecidableEq, Repr

/-- The state threaded through the program: the three file-scope variables of the source, the
key codes that later `waitKey` calls will return, the disk (path to raster content), and the log
of library calls made so far. -/
structure World where
  out_filepath : String
  frame_num : Nat
  channel : Nat
  keys : List Int
  disk : String → Option (Mat Nat)
  log : List Event

/-- The state at program start: the initialisers of the file-scope variables. -/
def World.init (keys : List Int) (disk : String → Option (Mat Nat)) : World :=
  { out_filepath := "", frame_num := 0, channel := 0, keys := keys, disk := disk, log := [] }

/-- The call `waitKey(10)`: the next pending key code, or `-1` when no key was pressed. -/
def waitKey (w : World) : Int × World :=
  match w.keys with
  | [] => (-1, { w with log := w.log ++ [Event.keyPoll (-1)] })
  | k :: rest => (k, { w with keys := rest, log := w.log ++ [Event.keyPoll k] })

/-- Conversion of an `int` to `char` (8 bits, signed), as in `winInput = waitKey(10)`. -/
def toChar (k : Int) : Int := (k + 128) % 256 - 128

/-- The call `std::to_string` on an `unsigned int`: its decimal digits. -/
def to_string (n : Nat) : String := Nat.repr n

/-- The call `imwrite(path, img)`: the file at `path` now holds `img`. -/
def imwrite (path : String) (img : Mat Nat) (w : World) : World :=
  { w with
    disk := fun p => if p = path then some img else w.disk p
    log := w.log ++ [Event.imwrite path img] }

/-- The prefix increment `++frame_num` on an `unsigned int`. -/
def incr (n : Nat) : Nat := (n + 1) % UINT_RANGE

/-! ## The processing loop -/

/-- How one iteration of `while (1)` ends: it falls through to the next iteration, or it leaves
the loop through `break`. -/
inductive LoopStep where
  | next (cap : VideoCapture) (w : World)
  | brk (cap : VideoCapture) (w : World)

/-- The body of the `while (1)` loop of `mainLoop`. -/
def loopBody (cap : VideoCapture) (w : World) : LoopStep :=
  -- cap >> frame_src;
  let frame_src := cap.read.1
  let cap := cap.read.2
  let w := { w with log := w.log ++ [Event.capRead] }
  -- if (frame_src.empty()) { break; }
  if frame_src.empty then LoopStep.brk cap w else
  -- if ((winInput = waitKey(10)) == ESCAPE_KEY) { break; }
  let winInput := toChar (waitKey w).1
  let w := (waitKey w).2
  if winInput = ESCAPE_KEY then LoopStep.brk cap w else
  -- cvtColor(frame_src, frame_gray_single_band, COLOR_BGR2GRAY);
  let frame_gray_single_band := cvtColor_BGR2GRAY frame_src
  -- out_filepath = "./frames_out_chan_"; out_filepath += ...;
  let w := { w with out_filepath := "./frames_out_chan_" }
  let w := { w with out_filepath := w.out_filepath ++ to_string w.channel }
  let w := { w with out_filepath := w.out_filepath ++ "/frame_out" }
  let w := { w with out_filepath := w.out_filepath ++ to_string w.frame_num }
  let w := { w with out_filepath := w.out_filepath ++ ".pgm" }
  -- imwrite(out_filepath, frame_gray_single_band);
  let w := imwrite w.out_filepath frame_gray_single_band w
  -- ++frame_num;
  let w := { w with frame_num := incr w.frame_num }
  LoopStep.next cap w

/-- The state of the `while (1)` loop after some iterations: still running, or left. -/
inductive LoopState where
  | running (cap : VideoCapture) (w : World)
  | broke (cap : VideoCapture) (w : World)

/-- The state of the loop after at most `n` iterations from `cap`, `w`. -/
def iterate : Nat → VideoCapture → World → LoopState
  | 0, cap, w => LoopState.running cap w
  | n + 1, cap, w =>
    match loopBody cap w with
    | LoopStep.brk cap1 w1 => LoopState.broke cap1 w1
    | LoopStep.next cap1 w1 => iterate n cap1 w1

/-- The world of a loop state. -/
def LoopState.world : LoopState → World
  | LoopState.running _ w => w
  | LoopState.broke _ w => w

/-- How a call ends: it returns, the process exits with a status, or the iteration budget of the
model ran out. -/
inductive Outcome where
  | returned (w : World)
  | exited (status : Int) (w : World)
  | timeout

/-- The function `mainLoop(file_path)`.  Every iteration that does not leave the loop consumes a
frame, so one more iteration than there are frames is enough to leave it. -/
def mainLoop (fs : String → Option (List (Mat BGR))) (file_path : String) (w : World) :
    Outcome :=
  -- VideoCapture cap(file_path);
  let cap := VideoCapture.open fs file_path
  let w := { w with log := w.log ++ [Event.capOpen file_path] }
  -- if (!cap.isOpened()) { exit(SYSTEM_ERROR); }
  if !cap.isOpened then Outcome.exited SYSTEM_ERROR w else
  -- cap.set(CAP_PROP_CHANNEL, channel);
  let cap := cap.setChannel w.channel
  -- while (1) { ... }
  match iterate (cap.frames.length + 1) cap w with
  -- cap.release(); ...; return;   (the capture and the rasters are local to the call)
  | LoopState.broke _ w1 => Outcome.returned w1
  | LoopState.running _ _ => Outcome.timeout

/-- One iteration of the `for` loop of `main`: set `channel`, reset `frame_num`, call
`mainLoop`. -/
def passBody (fs : String → Option (List (Mat BGR))) (file_path : String) (chan : Nat)
    (w : World) : Outcome :=
  -- channel = chan; frame_num = 0;
  let w := { w with channel := chan }
  let w := { w with frame_num := 0 }
  -- switch (channel) { ... cout ... }   (console output only)
  mainLoop fs file_path w

/-- The `for` loop of `main` over the channel values still to be processed. -/
def forLoop (fs : String → Option (List (Mat BGR))) (file_path : String) :
    List Nat → World → Outcome
  | [], w => Outcome.returned w
  | chan :: rest, w =>
    match passBody fs file_path chan w with
    | Outcome.returned w1 => forLoop fs file_path rest w1
    | Outcome.exited status w1 => Outcome.exited status w1
    | Outcome.timeout => Outcome.timeout

/-- The function `main`: the exit status of the process and the final world (`none` if the
iteration budget of the model ran out). -/
def main (fs : String → Option (List (Mat BGR))) (file_path : String) (w : World) :
    Option (Int × World) :=
  -- for (int chan = 0; chan < 3; ++chan) { ... }
  match forLoop fs file_path [0, 1, 2] w with
  | Outcome.returned w1 => some (0, w1)
  | Outcome.exited status w1 => some (status, w1)
  | Outcome.timeout => none

/-- The world in which a call ended, if it ended. -/
def Outcome.world? : Outcome → Option World
  | Outcome.returned w => some w
  | Outcome.exited _ w => some w
  | Outcome.timeout => none

/-- The state of the loop of `mainLoop` after at most `n` iterations, in the pass for channel
`chan` that `main` enters from `w`. -/
def loopStateAt (fs : String → Option (List (Mat BGR))) (file_path : String) (chan : Nat)
    (w : World) (n : Nat) : LoopState :=
  iterate n ((VideoCapture.open fs file_path).setChannel chan)
    { w with channel := chan, frame_num := 0, log := w.log ++ [Event.capOpen file_path] }

/-! ## Observations on a log -/

/-- The `imwrite` calls of a log, in order: path and raster. -/
def imwrites (log : List Event) : List (String × Mat Nat) :=
  log.filterMap fun e =>
    match e with
    | Event.imwrite p img => some (p, img)
    | _ => none

/-- The number of frame decodes (`cap >> frame_src`) of a log. -/
def reads (log : List Event) : Nat := log.count Event.capRead

/-- The paths on which a capture was constructed, in order: one entry per pass started. -/
def opens (log : List Event) : List String :=
  log.filterMap fun e =>
    match e with
    | Event.capOpen p => some p
    | _ => none

/-- The disk after a sequence of writes, applied in order. -/
def applyWrites (ws : List (String × Mat Nat)) (disk : String → Option (Mat Nat)) :
    String → Option (Mat Nat) :=
  ws.foldl (fun d e => fun p => if p = e.1 then some e.2 else d p) disk

/-- The number of loop iterations that reach the write, for the frames still to decode and the
pending key codes: the loop is left at the first empty frame or the first key code taken for the
escape key. -/
def completed : List (Mat BGR) → List Int → Nat
  | [], _ => 0
  | f :: rest, keys =>
    if f.empty then 0
    else if toChar (keys.headD (-1)) = ESCAPE_KEY then 0
    else completed rest keys.tail + 1

/-- The output path for channel `c` and frame number `n`. -/
def outPath (c n : Nat) : String :=
  "./frames_out_chan_" ++ to_string c ++ "/frame_out" ++ to_string n ++ ".pgm"

/-- The output directory for channel `c`. -/
def outDir (c : Nat) : String := "./frames_out_chan_" ++ to_string c

/-- The directory part of a path: everything before its last `/`. -/
def dirname (p : String) : String :=
  ⟨((p.data.reverse.dropWhile (fun ch => ch != '/')).drop 1).reverse⟩

/-- The first `m` writes of a pass for channel `c` that starts with frame counter `n0`: the
`k`-th write stores the grayscale conversion of the `k`-th frame under the `k`-th counter
value. -/
def passWrites (c n0 : Nat) (frames : List (Mat BGR)) (m : Nat) : List (String × Mat Nat) :=
  (List.range m).map fun k =>
    (outPath c (incr^[k] n0), cvtColor_BGR2GRAY (frames.getD k Mat.released))

/-- The writes of a pass for channel `c` that handles every frame: the grayscale conversion of
frame `k` under frame number `k`. -/
def expectedWrites (c : Nat) (frames : List (Mat BGR)) : List (String × Mat Nat) :=
  (List.range frames.length).map fun k =>
    (outPath c k, cvtColor_BGR2GRAY (frames.getD k Mat.released))

/-- A 1 x 1 test frame with distinct samples in its three bands. -/
def px : Mat BGR := ⟨1, 1, [⟨10, 20, 30⟩]⟩

/-- The raster holding band `c` of every pixel of `src`: the single-band extraction that the
comments of the source announce for the pass of channel `c`. -/
def bandImage (c : Nat) (src : Mat BGR) : Mat Nat :=
  { rows := src.rows, cols := src.cols, data := src.data.map fun p => p.band c }

/-- A start state for examples: no key pending, an empty disk, an empty log. -/
def worldStart : World := World.init [] (fun _ => none)

/-- The state after one loop iteration from `worldStart` on a video that starts with `px`. -/
def worldAfterOne : World :=
  { out_filepath := "./frames_out_chan_0/frame_out0.pgm"
    frame_num := 1
    channel := 0
    keys := []
    disk := fun p => if p = "./frames_out_chan_0/frame_out0.pgm" then some ⟨1, 1, [22]⟩ else none
    log := [Event.capRead, Event.keyPoll (-1),
      Event.imwrite "./frames_out_chan_0/frame_out0.pgm" ⟨1, 1, [22]⟩] }

/-- A file system in which every path opens as the given frames. -/
def fsOf (frames : List (Mat BGR)) : String → Option (List (Mat BGR)) := fun _ => some frames

/-- A file system in which no path can be opened. -/
def fsNone : String → Option (List (Mat BGR)) := fun _ => none

/-! ## Decimal rendering -/

/-- The number denoted by a list of decimal digit characters, continuing from `a`. -/
def decVal (a : Nat) (cs : List Char) : Nat :=
  cs.foldl (fun a c => 10 * a + (c.toNat - 48)) a

theorem digitChar_toNat (m : Nat) (h : m < 10) : (Nat.digitChar m).toNat - 48 = m := by
  interval_cases m <;> rfl

theorem digitChar_ne_slash (m : Nat) (h : m < 10) : Nat.digitChar m ≠ '/' := by
  interval_cases m <;> decide

theorem decVal_toDigitsCore : ∀ (fuel n : Nat) (acc : List Char), n < fuel →
    decVal 0 (Nat.toDigitsCore 10 fuel n acc) = decVal n acc := by
  intro fuel
  induction fuel with
  | zero => intro n acc h; omega
  | succ fuel ih =>
    intro n acc h
    have hd : (Nat.digitChar (n % 10)).toNat - 48 = n % 10 :=
      digitChar_toNat _ (Nat.mod_lt _ (by decide))
    simp only [Nat.toDigitsCore]
    split
    · rename_i h0
      have hn : (Nat.digitChar (n % 10)).toNat - 48 = n := by rw [hd]; omega
      simp only [decVal, List.foldl_cons, hn, Nat.mul_zero, Nat.zero_add]
    · rename_i h0
      rw [ih (n / 10) _ (by omega)]
      simp only [decVal, List.foldl_cons, hd]
      congr 1
      omega

theorem toDigitsCore_ne_slash : ∀ (fuel n : Nat) (acc : List Char),
    (∀ c ∈ acc, c ≠ '/') → ∀ c ∈ Nat.toDigitsCore 10 fuel n acc, c ≠ '/' := by
  intro fuel
  induction fuel with
  | zero => intro n acc h c hc; simp only [Nat.toDigitsCore] at hc; exact h c hc
  | succ fuel ih =>
    intro n acc h
    have hd : Nat.digitChar (n % 10) ≠ '/' := digitChar_ne_slash _ (Nat.mod_lt _ (by decide))
    have hacc : ∀ c ∈ Nat.digitChar (n % 10) :: acc, c ≠ '/' := by
      intro c hc
      rcases List.mem_cons.mp hc with rfl | hc
      · exact hd
      · exact h c hc
    simp only [Nat.toDigitsCore]
    split
    · exact hacc
    · exact ih _ _ hacc

theorem to_string_data (n : Nat) : (to_string n).data = Nat.toDigits 10 n := rfl

theorem decVal_to_string (n : Nat) : decVal 0 (to_string n).data = n := by
  rw [to_string_data]
  simpa [Nat.toDigits, decVal] using decVal_toDigitsCore (n + 1) n [] (Nat.lt_succ_self n)

theorem to_string_injective : Function.Injective to_string := by
  intro a b h
  rw [← decVal_to_string a, ← decVal_to_string b, h]

theorem to_string_ne_slash (n : Nat) : ∀ c ∈ (to_string n).data, c ≠ '/' := by
  rw [to_string_data]
  exact toDigitsCore_ne_slash _ _ [] (by simp)

/-! ## Output paths -/

theorem outPath_data (c n : Nat) : (outPath c n).data =
    (outDir c).data ++ '/' :: ("frame_out".data ++ ((to_string n).data ++ ".pgm".data)) := by
  simp only [outPath, outDir, String.data_append, List.append_assoc]
  rfl

theorem outPath_injective (c : Nat) : Function.Injective (outPath c) := by
  intro a b h
  have hd := congrArg String.data h
  rw [outPath_data, outPath_data] at hd
  have h1 := List.cons_injective (List.append_cancel_left hd)
  have h2 := List.append_cancel_right (List.append_cancel_left h1)
  exact to_string_injective (String.ext h2)

theorem outDir_injective : Function.Injective outDir := by
  intro a b h
  have hd := congrArg String.data h
  simp only [outDir, String.data_append] at hd
  exact to_string_injective (String.ext (List.append_cancel_left hd))

theorem dropWhile_append_of_forall {α : Type} (p : α → Bool) :
    ∀ (l1 l2 : List α), (∀ x ∈ l1, p x = true) →
      (l1 ++ l2).dropWhile p = l2.dropWhile p := by
  intro l1
  induction l1 with
  | nil => intro l2 _; rfl
  | cons x xs ih =>
    intro l2 h
    have hx : p x = true := h x (List.mem_cons_self _ _)
    simp only [List.cons_append, List.dropWhile_cons, hx, if_true]
    exact ih l2 (fun y hy => h y (List.mem_cons_of_mem _ hy))

theorem dirname_of_data (p : String) (d b : List Char) (hp : p.data = d ++ '/' :: b)
    (hb : ∀ c ∈ b, c ≠ '/') : dirname p = ⟨d⟩ := by
  have hrev : ∀ x ∈ b.reverse, (fun ch : Char => ch != '/') x = true := by
    intro x hx
    simpa using hb x (List.mem_reverse.mp hx)
  simp only [dirname, hp, List.reverse_append, List.reverse_cons, List.append_assoc]
  rw [dropWhile_append_of_forall _ _ _ hrev]
  simp

theorem dirname_outPath (c n : Nat) : dirname (outPath c n) = outDir c := by
  refine dirname_of_data _ _ _ (outPath_data c n) ?_
  have h1 : ∀ ch ∈ "frame_out".data, ch ≠ '/' := by decide
  have h2 : ∀ ch ∈ ".pgm".data, ch ≠ '/' := by decide
  intro ch hch
  rcases List.mem_append.mp hch with h | h
  · exact h1 ch h
  rcases List.mem_append.mp h with h | h
  · exact to_string_ne_slash n ch h
  · exact h2 ch h

/-! ## One iteration of the loop -/

theorem waitKey_fst (w : World) : (waitKey w).1 = w.keys.headD (-1) := by
  unfold waitKey
  cases w.keys <;> rfl

theorem waitKey_snd (w : World) : (waitKey w).2 =
    { w with keys := w.keys.tail, log := w.log ++ [Event.keyPoll (w.keys.headD (-1))] } := by
  unfold waitKey
  cases h : w.keys <;> simp [h]

theorem loopBody_nil (o : Bool) (w : World) :
    loopBody ⟨o, []⟩ w = LoopStep.brk ⟨o, []⟩ { w with log := w.log ++ [Event.capRead] } := by
  simp [loopBody, VideoCapture.read, Mat.released, Mat.empty]

theorem loopBody_empty (o : Bool) (f : Mat BGR) (rest : List (Mat BGR)) (w : World)
    (hf : f.empty = true) :
    loopBody ⟨o, f :: rest⟩ w =
      LoopStep.brk ⟨o, rest⟩ { w with log := w.log ++ [Event.capRead] } := by
  simp [loopBody, VideoCapture.read, hf]

theorem loopBody_escape (o : Bool) (f : Mat BGR) (rest : List (Mat BGR)) (w : World)
    (hf : f.empty = false) (hk : toChar (w.keys.headD (-1)) = ESCAPE_KEY) :
    loopBody ⟨o, f :: rest⟩ w =
      LoopStep.brk ⟨o, rest⟩ { w with
        keys := w.keys.tail
        log := w.log ++ [Event.capRead, Event.keyPoll (w.keys.headD (-1))] } := by
  simp only [List.headD_eq_head?_getD] at hk
  simp [loopBody, VideoCapture.read, hf, waitKey_fst, waitKey_snd, hk]

theorem loopBody_write (o : Bool) (f : Mat BGR) (rest : List (Mat BGR)) (w : World)
    (hf : f.empty = false) (hk : toChar (w.keys.headD (-1)) ≠ ESCAPE_KEY) :
    loopBody ⟨o, f :: rest⟩ w =
      LoopStep.next ⟨o, rest⟩
        { out_filepath := outPath w.channel w.frame_num
          frame_num := incr w.frame_num
          channel := w.channel
          keys := w.keys.tail
          disk := fun p =>
            if p = outPath w.channel w.frame_num then some (cvtColor_BGR2GRAY f) else w.disk p
          log := w.log ++ [Event.capRead, Event.keyPoll (w.keys.headD (-1)),
            Event.imwrite (outPath w.channel w.frame_num) (cvtColor_BGR2GRAY f)] } := by
  simp only [List.headD_eq_head?_getD] at hk
  simp [loopBody, VideoCapture.read, hf, waitKey_fst, waitKey_snd, hk, imwrite, outPath]

/-! ## The loop as a whole -/

theorem imwrites_append (l1 l2 : List Event) : imwrites (l1 ++ l2) = imwrites l1 ++ imwrites l2 := by
  simp [imwrites]

theorem opens_append (l1 l2 : List Event) : opens (l1 ++ l2) = opens l1 ++ opens l2 := by
  simp [opens]

theorem passWrites_zero (c n0 : Nat) (frames : List (Mat BGR)) : passWrites c n0 frames 0 = [] :=
  rfl

theorem passWrites_succ (c n0 : Nat) (f : Mat BGR) (rest : List (Mat BGR)) (m : Nat) :
    passWrites c n0 (f :: rest) (m + 1) =
      (outPath c n0, cvtColor_BGR2GRAY f) :: passWrites c (incr n0) rest m := by
  simp only [passWrites, List.range_succ_eq_map, List.map_cons, List.map_map]
  congr 1

theorem passWrites_length (c n0 : Nat) (frames : List (Mat BGR)) (m : Nat) :
    (passWrites c n0 frames m).length = m := by
  simp [passWrites]

theorem completed_le_length : ∀ (frames : List (Mat BGR)) (keys : List Int),
    completed frames keys ≤ frames.length := by
  intro frames
  induction frames with
  | nil => intro keys; simp [completed]
  | cons f rest ih =>
    intro keys
    simp only [completed, List.length_cons]
    split
    · omega
    · split
      · omega
      · have := ih keys.tail
        omega

/-- The state of the loop after at most `n` iterations: with `m` the number of iterations that
reach the write, the loop has been left exactly when `m < n`, and `min n m` frames have been
written. -/
theorem iterate_spec : ∀ (n : Nat) (frames : List (Mat BGR)) (o : Bool) (w : World),
    ∃ cap1 w1,
      iterate n ⟨o, frames⟩ w =
        (if completed frames w.keys < n then LoopState.broke cap1 w1
          else LoopState.running cap1 w1) ∧
      w1.channel = w.channel ∧
      w1.frame_num = incr^[min n (completed frames w.keys)] w.frame_num ∧
      imwrites w1.log = imwrites w.log ++
        passWrites w.channel w.frame_num frames (min n (completed frames w.keys)) ∧
      opens w1.log = opens w.log ∧
      w1.disk = applyWrites
        (passWrites w.channel w.frame_num frames (min n (completed frames w.keys))) w.disk ∧
      (∃ d, w1.keys = w.keys.drop d) := by
  intro n
  induction n with
  | zero =>
    intro frames o w
    exact ⟨⟨o, frames⟩, w, by simp [iterate], rfl, by simp, by simp [passWrites_zero], rfl,
      by simp [passWrites_zero, applyWrites], 0, rfl⟩
  | succ n ih =>
    intro frames o w
    cases frames with
    | nil =>
      refine ⟨⟨o, []⟩, { w with log := w.log ++ [Event.capRead] }, ?_, rfl, ?_, ?_, ?_, ?_,
        0, rfl⟩
      · simp [iterate, loopBody_nil, completed]
      · simp [completed]
      · simp [completed, passWrites_zero, imwrites]
      · simp [opens]
      · simp [completed, passWrites_zero, applyWrites]
    | cons f rest =>
      by_cases hf : f.empty = true
      · have hc : completed (f :: rest) w.keys = 0 := by
          simp only [completed, hf, ↓reduceIte]
        refine ⟨⟨o, rest⟩, { w with log := w.log ++ [Event.capRead] }, ?_, rfl, ?_, ?_, ?_, ?_,
          0, rfl⟩
        · simp [iterate, loopBody_empty o f rest w hf, hc]
        · simp [hc]
        · simp [hc, passWrites_zero, imwrites]
        · simp [opens]
        · simp [hc, passWrites_zero, applyWrites]
      · have hf : f.empty = false := by simpa using hf
        by_cases hk : toChar (w.keys.headD (-1)) = ESCAPE_KEY
        · have hc : completed (f :: rest) w.keys = 0 := by
            simp only [completed, hf, hk, Bool.false_eq_true, ↓reduceIte]
          refine ⟨⟨o, rest⟩, { w with
              keys := w.keys.tail
              log := w.log ++ [Event.capRead, Event.keyPoll (w.keys.headD (-1))] },
            ?_, rfl, ?_, ?_, ?_, ?_, 1, by simp⟩
          · simp [iterate, loopBody_escape o f rest w hf hk, hc]
          · simp [hc]
          · simp [hc, passWrites_zero, imwrites]
          · simp [opens]
          · simp [hc, passWrites_zero, applyWrites]
        · obtain ⟨cap1, w1, h1, h2, h3, h4, h5, h6, d, h7⟩ := ih rest o
            { out_filepath := outPath w.channel w.frame_num
              frame_num := incr w.frame_num
              channel := w.channel
              keys := w.keys.tail
              disk := fun p =>
                if p = outPath w.channel w.frame_num then some (cvtColor_BGR2GRAY f)
                else w.disk p
              log := w.log ++ [Event.capRead, Event.keyPoll (w.keys.headD (-1)),
                Event.imwrite (outPath w.channel w.frame_num) (cvtColor_BGR2GRAY f)] }
          dsimp only at h1 h2 h3 h4 h5 h6 h7
          have hc : completed (f :: rest) w.keys = completed rest w.keys.tail + 1 := by
            simp only [completed, hf, hk, Bool.false_eq_true, ↓reduceIte]
          have hmin : min (n + 1) (completed rest w.keys.tail + 1) =
              min n (completed rest w.keys.tail) + 1 := by omega
          refine ⟨cap1, w1, ?_, ?_, ?_, ?_, ?_, ?_, d + 1, by rw [h7]; simp⟩
          · simp only [iterate, loopBody_write o f rest w hf hk, h1, hc, Nat.add_lt_add_iff_right]
          · exact h2
          · rw [h3, hc, hmin, Function.iterate_succ_apply]
          · rw [h4, hc, hmin, passWrites_succ]
            simp [imwrites_append, imwrites]
          · rw [h5]
            simp [opens_append, opens]
          · rw [h6, hc, hmin, passWrites_succ]
            simp [applyWrites]

/-! ## One channel pass -/

theorem incr_iterate (k n : Nat) (hn : n < UINT_RANGE) : incr^[k] n = (n + k) % UINT_RANGE := by
  induction k with
  | zero => simp [Nat.mod_eq_of_lt hn]
  | succ k ih =>
    rw [Function.iterate_succ_apply', ih]
    simp only [incr, UINT_RANGE]
    omega

theorem incr_iterate_zero (k : Nat) : incr^[k] 0 = k % UINT_RANGE := by
  simpa using incr_iterate k 0 (by decide)

/-- A pass over an openable video returns, having opened the file once and written the first
`completed frames w.keys` frames, numbered from 0. -/
theorem passBody_spec (fs : String → Option (List (Mat BGR))) (file_path : String)
    (frames : List (Mat BGR)) (hfs : fs file_path = some frames) (chan : Nat) (w : World) :
    ∃ w1, passBody fs file_path chan w = Outcome.returned w1 ∧
      w1.channel = chan ∧
      w1.frame_num = incr^[completed frames w.keys] 0 ∧
      imwrites w1.log = imwrites w.log ++ passWrites chan 0 frames (completed frames w.keys) ∧
      opens w1.log = opens w.log ++ [file_path] ∧
      w1.disk = applyWrites (passWrites chan 0 frames (completed frames w.keys)) w.disk ∧
      (∃ d, w1.keys = w.keys.drop d) := by
  obtain ⟨cap1, w1, h1, h2, h3, h4, h5, h6, h7⟩ := iterate_spec (frames.length + 1) frames true
    { w with channel := chan, frame_num := 0, log := w.log ++ [Event.capOpen file_path] }
  dsimp only at h1 h2 h3 h4 h5 h6 h7
  have hm : completed frames w.keys < frames.length + 1 :=
    Nat.lt_succ_of_le (completed_le_length frames w.keys)
  have hmin : min (frames.length + 1) (completed frames w.keys) = completed frames w.keys := by
    omega
  rw [if_pos hm] at h1
  rw [hmin] at h3 h4 h6
  refine ⟨w1, ?_, h2, h3, ?_, ?_, h6, h7⟩
  · simp [passBody, mainLoop, VideoCapture.open, hfs, VideoCapture.isOpened,
      VideoCapture.setChannel, h1]
  · rw [h4]
    simp [imwrites_append, imwrites]
  · rw [h5]
    simp [opens_append, opens]

/-- For the key codes `waitKey` documents (`-1` for no key, else a code below 256), the loop takes
a code for the escape key exactly when it is `ESCAPE_KEY`. -/
theorem toChar_eq_escape_iff (k : Int) (hlo : -1 ≤ k) (hhi : k ≤ 255) :
    toChar k = ESCAPE_KEY ↔ k = ESCAPE_KEY := by
  simp only [toChar, ESCAPE_KEY]
  omega

theorem toChar_headD_ne (keys : List Int) (hk : ∀ k ∈ keys, toChar k ≠ ESCAPE_KEY) :
    toChar (keys.headD (-1)) ≠ ESCAPE_KEY := by
  cases keys with
  | nil => decide
  | cons k rest => exact hk k (List.mem_cons_self _ _)

theorem completed_eq_length : ∀ (frames : List (Mat BGR)) (keys : List Int),
    (∀ f ∈ frames, f.empty = false) → (∀ k ∈ keys, toChar k ≠ ESCAPE_KEY) →
    completed frames keys = frames.length := by
  intro frames
  induction frames with
  | nil => intro keys _ _; rfl
  | cons f rest ih =>
    intro keys hne hk
    have hf : f.empty = false := hne f (List.mem_cons_self _ _)
    have hk0 := toChar_headD_ne keys hk
    simp only [completed, hf, hk0, Bool.false_eq_true, ↓reduceIte, List.length_cons]
    rw [ih keys.tail (fun g hg => hne g (List.mem_cons_of_mem _ hg))
      (fun k hk1 => hk k (List.mem_of_mem_tail hk1))]

theorem passWrites_eq_expected (c : Nat) (frames : List (Mat BGR))
    (hF : frames.length ≤ UINT_RANGE) :
    passWrites c 0 frames frames.length = expectedWrites c frames := by
  simp only [passWrites, expectedWrites]
  apply List.map_congr_left
  intro k hk
  have hk1 : k < frames.length := List.mem_range.mp hk
  rw [incr_iterate_zero, Nat.mod_eq_of_lt (by omega)]

/-- The run of `main` on an openable video is the sequence of the three passes. -/
theorem main_passes (fs : String → Option (List (Mat BGR))) (file_path : String)
    (frames : List (Mat BGR)) (hfs : fs file_path = some frames) (w : World) :
    ∃ w0 w1 w2, passBody fs file_path 0 w = Outcome.returned w0 ∧
      passBody fs file_path 1 w0 = Outcome.returned w1 ∧
      passBody fs file_path 2 w1 = Outcome.returned w2 ∧
      main fs file_path w = some (0, w2) := by
  obtain ⟨w0, h0, -⟩ := passBody_spec fs file_path frames hfs 0 w
  obtain ⟨w1, h1, -⟩ := passBody_spec fs file_path frames hfs 1 w0
  obtain ⟨w2, h2, -⟩ := passBody_spec fs file_path frames hfs 2 w1
  exact ⟨w0, w1, w2, h0, h1, h2, by simp [main, forLoop, h0, h1, h2]⟩

theorem keys_drop_ne (keys keys1 : List Int) (hk : ∀ k ∈ keys, toChar k ≠ ESCAPE_KEY)
    (hd : ∃ d, keys1 = keys.drop d) : ∀ k ∈ keys1, toChar k ≠ ESCAPE_KEY := by
  obtain ⟨d, rfl⟩ := hd
  exact fun k hk1 => hk k (List.mem_of_mem_drop hk1)

theorem completed_replicate (F : Nat) (keys : List Int)
    (hk : ∀ k ∈ keys, toChar k ≠ ESCAPE_KEY) : completed (List.replicate F px) keys = F := by
  have h := completed_eq_length (List.replicate F px) keys
    (fun f hf => by rw [List.eq_of_mem_replicate hf]; rfl) hk
  rw [h, List.length_replicate]

theorem passWrites_path_wrap (c F : Nat) (frames : List (Mat BGR)) (hF : UINT_RANGE < F) :
    ((passWrites c 0 frames F).map Prod.fst)[UINT_RANGE]? = some (outPath c 0) := by
  simp only [passWrites, List.map_map, List.getElem?_map, List.getElem?_range hF,
    Option.map_some', Function.comp_apply, incr_iterate_zero, Nat.mod_self]

/-- On a video of more than `2 ^ 32` frames with no key pressed, the write of index `2 ^ 32` of
the first pass reuses frame number 0. -/
theorem main_wraps (F : Nat) (hF : UINT_RANGE < F) :
    ∃ w1, main (fsOf (List.replicate F px)) "video" (worldStart) =
        some (0, w1) ∧
      ((imwrites w1.log).map Prod.fst)[UINT_RANGE]? = some (outPath 0 0) ∧
      (imwrites w1.log).map Prod.fst ≠
        (List.range F).map (outPath 0) ++ (List.range F).map (outPath 1) ++
          (List.range F).map (outPath 2) := by
  obtain ⟨w0, w1, w2, h0, h1, h2, hm⟩ := main_passes (fsOf (List.replicate F px)) "video"
    (List.replicate F px) rfl (worldStart)
  obtain ⟨v0, e0, -, -, a0, -, -, -⟩ := passBody_spec (fsOf (List.replicate F px)) "video"
    (List.replicate F px) rfl 0 (worldStart)
  obtain ⟨v1, e1, -, -, a1, -, -, -⟩ := passBody_spec (fsOf (List.replicate F px)) "video"
    (List.replicate F px) rfl 1 w0
  obtain ⟨v2, e2, -, -, a2, -, -, -⟩ := passBody_spec (fsOf (List.replicate F px)) "video"
    (List.replicate F px) rfl 2 w1
  rw [h0] at e0
  rw [h1] at e1
  rw [h2] at e2
  cases e0
  cases e1
  cases e2
  have hc : completed (List.replicate F px) (worldStart).keys = F :=
    completed_replicate F _ (by intro k hk; cases hk)
  rw [hc] at a0
  have hlen : UINT_RANGE < ((passWrites 0 0 (List.replicate F px) F).map Prod.fst).length := by
    simpa [passWrites] using hF
  have hget : ((imwrites w2.log).map Prod.fst)[UINT_RANGE]? = some (outPath 0 0) := by
    have hnil : imwrites worldStart.log = [] := rfl
    rw [a2, a1, a0, hnil]
    simp only [List.nil_append, List.map_append, List.append_assoc]
    rw [List.getElem?_append_left hlen]
    exact passWrites_path_wrap 0 F _ hF
  refine ⟨w2, hm, hget, ?_⟩
  intro he
  rw [he] at hget
  have hlen2 : UINT_RANGE < ((List.range F).map (outPath 0)).length := by simpa using hF
  rw [List.append_assoc, List.getElem?_append_left hlen2] at hget
  simp only [List.getElem?_map, List.getElem?_range hF, Option.map_some', Option.some.injEq]
    at hget
  have := outPath_injective 0 hget
  simp [UINT_RANGE] at this

theorem passWrites_mem (c n0 : Nat) (frames : List (Mat BGR)) (m : Nat) (e : String × Mat Nat)
    (h : e ∈ passWrites c n0 frames m) : ∃ k, k < m ∧ e.1 = outPath c (incr^[k] n0) := by
  simp only [passWrites, List.mem_map, List.mem_range] at h
  obtain ⟨k, hk, rfl⟩ := h
  exact ⟨k, hk, rfl⟩

theorem passWrites_getElem? (c n0 : Nat) (frames : List (Mat BGR)) (m k : Nat)
    (e : String × Mat Nat) (h : (passWrites c n0 frames m)[k]? = some e) :
    k < m ∧ e = (outPath c (incr^[k] n0), cvtColor_BGR2GRAY (frames.getD k Mat.released)) := by
  simp only [passWrites, List.getElem?_map] at h
  by_cases hk : k < m
  · rw [List.getElem?_range hk] at h
    simp only [Option.map_some', Option.some.injEq] at h
    exact ⟨hk, h.symm⟩
  · rw [List.getElem?_eq_none (by simpa using hk)] at h
    simp at h

theorem passWrites_contents (c n0 : Nat) (frames : List (Mat BGR)) (m : Nat)
    (hm : m ≤ frames.length) :
    (passWrites c n0 frames m).map Prod.snd = (frames.take m).map cvtColor_BGR2GRAY := by
  apply List.ext_getElem?
  intro k
  simp only [passWrites, List.map_map, List.getElem?_map, List.getElem?_take]
  by_cases hk : k < m
  · have hk2 : k < frames.length := by omega
    simp [List.getElem?_range hk, hk, List.getD_eq_getElem?_getD, List.getElem?_eq_getElem hk2]
  · rw [List.getElem?_eq_none (by simpa using hk)]
    simp [hk]

theorem applyWrites_snoc (ws : List (String × Mat Nat)) (e : String × Mat Nat)
    (d : String → Option (Mat Nat)) :
    applyWrites (ws ++ [e]) d = fun p => if p = e.1 then some e.2 else applyWrites ws d p := by
  simp [applyWrites, List.foldl_append]

theorem applyWrites_congr : ∀ (ws : List (String × Mat Nat)) (d1 d2 : String → Option (Mat Nat))
    (p : String), d1 p = d2 p → applyWrites ws d1 p = applyWrites ws d2 p := by
  intro ws
  induction ws with
  | nil => intro d1 d2 p h; exact h
  | cons e rest ih =>
    intro d1 d2 p h
    simp only [applyWrites, List.foldl_cons]
    apply ih
    simp only [h]

/-- Replaying a sequence of writes on the disk it produced changes nothing. -/
theorem applyWrites_idem (ws : List (String × Mat Nat)) :
    ∀ d : String → Option (Mat Nat), applyWrites ws (applyWrites ws d) = applyWrites ws d := by
  induction ws using List.reverseRecOn with
  | nil => intro d; rfl
  | append_singleton ws e ih =>
    intro d
    funext p
    rw [applyWrites_snoc ws e (applyWrites (ws ++ [e]) d), applyWrites_snoc ws e d]
    by_cases hp : p = e.1
    · simp only [hp, if_true]
    · simp only [hp, if_false]
      rw [applyWrites_congr ws _ (applyWrites ws d) p (by simp only [hp, if_false]), ih]

theorem passBody_unopenable (fs : String → Option (List (Mat BGR))) (file_path : String)
    (hfs : fs file_path = none) (chan : Nat) (w : World) :
    passBody fs file_path chan w = Outcome.exited SYSTEM_ERROR
      { w with channel := chan, frame_num := 0, log := w.log ++ [Event.capOpen file_path] } := by
  simp [passBody, mainLoop, VideoCapture.open, hfs, VideoCapture.isOpened]

theorem passBody_unopenable_world (fs : String → Option (List (Mat BGR))) (file_path : String)
    (hfs : fs file_path = none) (chan : Nat) (w : World) :
    ∃ w1, (passBody fs file_path chan w).world? = some w1 ∧ w1.disk = w.disk := by
  rw [passBody_unopenable fs file_path hfs]
  exact ⟨_, rfl, rfl⟩

theorem LoopState.world_ite (c : Prop) [Decidable c] (cap : VideoCapture) (w : World) :
    (if c then LoopState.broke cap w else LoopState.running cap w).world = w := by
  split <;> rfl

/-- The state of the loop of a pass after at most `n` iterations: `min n m` frames written,
`m` being the number of iterations that reach the write. -/
theorem loopStateAt_spec (fs : String → Option (List (Mat BGR))) (file_path : String)
    (frames : List (Mat BGR)) (hfs : fs file_path = some frames) (chan : Nat) (w : World)
    (n : Nat) :
    (loopStateAt fs file_path chan w n).world.frame_num =
        incr^[min n (completed frames w.keys)] 0 ∧
      imwrites (loopStateAt fs file_path chan w n).world.log =
        imwrites w.log ++ passWrites chan 0 frames (min n (completed frames w.keys)) := by
  obtain ⟨cap1, w1, h1, -, h3, h4, -, -, -⟩ := iterate_spec n frames true
    { w with channel := chan, frame_num := 0, log := w.log ++ [Event.capOpen file_path] }
  dsimp only at h1 h3 h4
  have hw : (loopStateAt fs file_path chan w n).world = w1 := by
    simp only [loopStateAt, VideoCapture.open, hfs, VideoCapture.setChannel, h1,
      LoopState.world_ite]
  rw [hw, h3, h4]
  simp [imwrites_append, imwrites]

theorem passBody_eq_loopStateAt (fs : String → Option (List (Mat BGR))) (file_path : String)
    (frames : List (Mat BGR)) (hfs : fs file_path = some frames) (chan : Nat) (w : World) :
    passBody fs file_path chan w =
      Outcome.returned (loopStateAt fs file_path chan w (frames.length + 1)).world := by
  obtain ⟨cap1, w1, h1, -⟩ := iterate_spec (frames.length + 1) frames true
    { w with channel := chan, frame_num := 0, log := w.log ++ [Event.capOpen file_path] }
  dsimp only at h1
  have hm : completed frames w.keys < frames.length + 1 :=
    Nat.lt_succ_of_le (completed_le_length frames w.keys)
  rw [if_pos hm] at h1
  simp [passBody, mainLoop, loopStateAt, VideoCapture.open, hfs, VideoCapture.isOpened,
    VideoCapture.setChannel, h1, LoopState.world]

theorem loopStateAt_replicate (F n : Nat) (hn : n ≤ F) :
    (loopStateAt (fsOf (List.replicate F px)) "video" 0 worldStart n).world.frame_num =
        n % UINT_RANGE ∧
      (imwrites (loopStateAt (fsOf (List.replicate F px)) "video" 0 worldStart n).world.log).length
        = n := by
  obtain ⟨h1, h2⟩ := loopStateAt_spec (fsOf (List.replicate F px)) "video"
    (List.replicate F px) rfl 0 worldStart n
  have hc : completed (List.replicate F px) worldStart.keys = F :=
    completed_replicate F _ (by intro k hk; cases hk)
  have hmin : min n F = n := by omega
  rw [hc, hmin] at h1 h2
  have hnil : imwrites worldStart.log = [] := rfl
  rw [h1, h2, hnil, incr_iterate_zero, List.nil_append, passWrites_length]
  exact ⟨rfl, rfl⟩

/-! ## Claims -/

/-- C1 (as amended): for an openable video of `F ≤ 2 ^ 32` non-empty frames and key codes none of
which is taken for the escape key, `main` ends with status 0 and its image writes are, in order,
those of three complete passes: for each channel 0, 1, 2 exactly `F` writes, the `k`-th of them
storing frame `k` under frame number `k`. -/
theorem C1_each_pass_writes_every_frame (fs : String → Option (List (Mat BGR)))
    (file_path : String) (frames : List (Mat BGR)) (w : World)
    (hfs : fs file_path = some frames)
    (hne : ∀ f ∈ frames, f.empty = false)
    (hkeys : ∀ k ∈ w.keys, toChar k ≠ ESCAPE_KEY)
    (hF : frames.length ≤ UINT_RANGE) :
    ∃ w1, main fs file_path w = some (0, w1) ∧
      imwrites w1.log = imwrites w.log ++
        (expectedWrites 0 frames ++ expectedWrites 1 frames ++ expectedWrites 2 frames) ∧
      (expectedWrites 0 frames).length = frames.length ∧
      (expectedWrites 1 frames).length = frames.length ∧
      (expectedWrites 2 frames).length = frames.length := by
  obtain ⟨w0, w1, w2, h0, h1, h2, hm⟩ := main_passes fs file_path frames hfs w
  obtain ⟨v0, e0, -, -, a0, -, -, k0⟩ := passBody_spec fs file_path frames hfs 0 w
  obtain ⟨v1, e1, -, -, a1, -, -, k1⟩ := passBody_spec fs file_path frames hfs 1 w0
  obtain ⟨v2, e2, -, -, a2, -, -, -⟩ := passBody_spec fs file_path frames hfs 2 w1
  rw [h0] at e0
  rw [h1] at e1
  rw [h2] at e2
  cases e0
  cases e1
  cases e2
  have hk0 := keys_drop_ne _ _ hkeys k0
  have hk1 := keys_drop_ne _ _ hk0 k1
  rw [completed_eq_length frames _ hne hkeys, passWrites_eq_expected _ _ hF] at a0
  rw [completed_eq_length frames _ hne hk0, passWrites_eq_expected _ _ hF] at a1
  rw [completed_eq_length frames _ hne hk1, passWrites_eq_expected _ _ hF] at a2
  refine ⟨w2, hm, ?_, ?_, ?_, ?_⟩
  · rw [a2, a1, a0]
    simp [List.append_assoc]
  all_goals simp [expectedWrites]

/-- Witness for C1: a video of two frames, no key pressed. -/
theorem C1_each_pass_writes_every_frame_witness :
    (fsOf [px, px] "video" = some [px, px] ∧
      (∀ f ∈ [px, px], f.empty = false) ∧
      (∀ k ∈ (worldStart).keys, toChar k ≠ ESCAPE_KEY) ∧
      [px, px].length ≤ UINT_RANGE) ∧
    ∃ w1, main (fsOf [px, px]) "video" (worldStart) = some (0, w1) ∧
      imwrites w1.log = imwrites (worldStart).log ++
        (expectedWrites 0 [px, px] ++ expectedWrites 1 [px, px] ++ expectedWrites 2 [px, px]) ∧
      (expectedWrites 0 [px, px]).length = [px, px].length ∧
      (expectedWrites 1 [px, px]).length = [px, px].length ∧
      (expectedWrites 2 [px, px]).length = [px, px].length :=
  ⟨⟨rfl, by decide, by decide, by decide⟩,
    C1_each_pass_writes_every_frame (fsOf [px, px]) "video" [px, px]
      (worldStart) rfl (by decide) (by decide) (by decide)⟩

/-- C1 (as stated, refuted): on a video of `2 ^ 32 + 1` frames with no key pressed, the first
pass writes its last frame under number 0 again, not under number `2 ^ 32`, so the frame numbers
used are not `0, ..., F - 1`. -/
theorem C1_counterexample_counter_wraps :
    ∃ w1, main (fsOf (List.replicate 4294967297 px)) "video" (worldStart) =
        some (0, w1) ∧
      ((imwrites w1.log).map Prod.fst)[4294967296]? = some (outPath 0 0) ∧
      (imwrites w1.log).map Prod.fst ≠
        (List.range 4294967297).map (outPath 0) ++ (List.range 4294967297).map (outPath 1) ++
          (List.range 4294967297).map (outPath 2) :=
  main_wraps 4294967297 (by decide)

/-- C2: whenever an iteration of the loop reaches the image write, the path it passes to
`imwrite` (and leaves in `out_filepath`) is `"./frames_out_chan_"`, the decimal digits of
`channel`, `"/frame_out"`, the decimal digits of `frame_num` and `".pgm"`, concatenated; the
digits are the base-10 rendering `Nat.repr`, which denotes the number it renders. -/
theorem C2_output_path_format (cap : VideoCapture) (w : World) (cap1 : VideoCapture)
    (w1 : World) (h : loopBody cap w = LoopStep.next cap1 w1) :
    ∃ img, w1.log = w.log ++ [Event.capRead, Event.keyPoll (w.keys.headD (-1)),
        Event.imwrite ("./frames_out_chan_" ++ Nat.repr w.channel ++ "/frame_out" ++
          Nat.repr w.frame_num ++ ".pgm") img] ∧
      w1.out_filepath = "./frames_out_chan_" ++ Nat.repr w.channel ++ "/frame_out" ++
        Nat.repr w.frame_num ++ ".pgm" ∧
      decVal 0 (Nat.repr w.channel).data = w.channel ∧
      decVal 0 (Nat.repr w.frame_num).data = w.frame_num := by
  obtain ⟨o, frames⟩ := cap
  cases frames with
  | nil => rw [loopBody_nil] at h; cases h
  | cons f rest =>
    by_cases hf : f.empty = true
    · rw [loopBody_empty o f rest w hf] at h; cases h
    · have hf : f.empty = false := by simpa using hf
      by_cases hk : toChar (w.keys.headD (-1)) = ESCAPE_KEY
      · rw [loopBody_escape o f rest w hf hk] at h; cases h
      · rw [loopBody_write o f rest w hf hk] at h
        cases h
        exact ⟨cvtColor_BGR2GRAY f, rfl, rfl, decVal_to_string _, decVal_to_string _⟩

/-- Witness for C2: the first iteration on a one-frame video in channel 0. -/
theorem C2_output_path_format_witness :
    loopBody ⟨true, [px]⟩ worldStart = LoopStep.next ⟨true, []⟩ worldAfterOne ∧
    ∃ img, worldAfterOne.log = worldStart.log ++
        [Event.capRead, Event.keyPoll (worldStart.keys.headD (-1)),
          Event.imwrite ("./frames_out_chan_" ++ Nat.repr worldStart.channel ++ "/frame_out" ++
            Nat.repr worldStart.frame_num ++ ".pgm") img] ∧
      worldAfterOne.out_filepath = "./frames_out_chan_" ++ Nat.repr worldStart.channel ++
        "/frame_out" ++ Nat.repr worldStart.frame_num ++ ".pgm" ∧
      decVal 0 (Nat.repr worldStart.channel).data = worldStart.channel ∧
      decVal 0 (Nat.repr worldStart.frame_num).data = worldStart.frame_num :=
  ⟨rfl, C2_output_path_format ⟨true, [px]⟩ worldStart ⟨true, []⟩ worldAfterOne rfl⟩

/-- C4: if the video cannot be opened, `main` ends in its first pass with exit status
`SYSTEM_ERROR`, which is `-1`: the only library call made is the one attempt to open the file, so
no image is written, no frame is decoded, the disk is as it was, and no second pass is started. -/
theorem C4_unopenable_video_exits (fs : String → Option (List (Mat BGR))) (file_path : String)
    (w : World) (hfs : fs file_path = none) :
    main fs file_path w = some (SYSTEM_ERROR,
      { w with channel := 0, frame_num := 0, log := w.log ++ [Event.capOpen file_path] }) ∧
    SYSTEM_ERROR = -1 ∧ SYSTEM_ERROR < 0 ∧
    imwrites (w.log ++ [Event.capOpen file_path]) = imwrites w.log ∧
    reads (w.log ++ [Event.capOpen file_path]) = reads w.log ∧
    opens (w.log ++ [Event.capOpen file_path]) = opens w.log ++ [file_path] := by
  refine ⟨?_, rfl, by decide, ?_, ?_, ?_⟩
  · simp [main, forLoop, passBody, mainLoop, VideoCapture.open, hfs, VideoCapture.isOpened]
  · simp [imwrites]
  · simp [reads]
  · simp [opens]

/-- Witness for C4: a file system in which nothing can be opened. -/
theorem C4_unopenable_video_exits_witness :
    fsNone "video" = none ∧
    (main fsNone "video" worldStart = some (SYSTEM_ERROR,
      { worldStart with
        channel := 0, frame_num := 0, log := worldStart.log ++ [Event.capOpen "video"] }) ∧
    SYSTEM_ERROR = -1 ∧ SYSTEM_ERROR < 0 ∧
    imwrites (worldStart.log ++ [Event.capOpen "video"]) = imwrites worldStart.log ∧
    reads (worldStart.log ++ [Event.capOpen "video"]) = reads worldStart.log ∧
    opens (worldStart.log ++ [Event.capOpen "video"]) = opens worldStart.log ++ ["video"]) :=
  ⟨rfl, C4_unopenable_video_exits fsNone "video" worldStart rfl⟩

/-- C5 (the code departs from the claim): on a video of the single frame `px`, whose only pixel
has blue 10, green 20, red 30, each of the three passes writes the luma raster (sample 22); none
writes the raster of its band (samples 10, 20, 30). -/
theorem C5_passes_write_luma_not_band :
    (main (fsOf [px]) "video" worldStart).map (fun r => imwrites r.2.log) =
      some [("./frames_out_chan_0/frame_out0.pgm", ⟨1, 1, [22]⟩),
        ("./frames_out_chan_1/frame_out0.pgm", ⟨1, 1, [22]⟩),
        ("./frames_out_chan_2/frame_out0.pgm", ⟨1, 1, [22]⟩)] ∧
    bandImage 0 px = ⟨1, 1, [10]⟩ ∧ bandImage 1 px = ⟨1, 1, [20]⟩ ∧
    bandImage 2 px = ⟨1, 1, [30]⟩ ∧
    cvtColor_BGR2GRAY px ≠ bandImage 0 px ∧ cvtColor_BGR2GRAY px ≠ bandImage 1 px ∧
    cvtColor_BGR2GRAY px ≠ bandImage 2 px := by
  decide

/-- C6: in a pass for channel `c1` every path written has the directory part `outDir c1`,
which is built from the channel value alone; for a different channel `c2` the directory differs,
and no path written in the pass for `c1` equals a path written in the pass for `c2`, whatever
states the two passes start from.  The directories of channels 0, 1, 2 are pairwise distinct. -/
theorem C6_directory_per_channel (fs : String → Option (List (Mat BGR))) (file_path : String)
    (frames : List (Mat BGR)) (hfs : fs file_path = some frames) (c1 c2 : Nat) (hc : c1 ≠ c2)
    (wa wb : World) :
    ∃ w1 w2 ws1 ws2, passBody fs file_path c1 wa = Outcome.returned w1 ∧
      imwrites w1.log = imwrites wa.log ++ ws1 ∧
      passBody fs file_path c2 wb = Outcome.returned w2 ∧
      imwrites w2.log = imwrites wb.log ++ ws2 ∧
      (∀ e ∈ ws1, dirname e.1 = outDir c1) ∧
      (∀ e ∈ ws2, dirname e.1 = outDir c2) ∧
      outDir c1 ≠ outDir c2 ∧
      (∀ e1 ∈ ws1, ∀ e2 ∈ ws2, e1.1 ≠ e2.1) ∧
      (∀ c n, dirname (outPath c n) = outDir c) ∧
      outDir 0 ≠ outDir 1 ∧ outDir 0 ≠ outDir 2 ∧ outDir 1 ≠ outDir 2 := by
  obtain ⟨w1, e1, -, -, a1, -, -, -⟩ := passBody_spec fs file_path frames hfs c1 wa
  obtain ⟨w2, e2, -, -, a2, -, -, -⟩ := passBody_spec fs file_path frames hfs c2 wb
  have hd : ∀ (c m : Nat), ∀ e ∈ passWrites c 0 frames m, dirname e.1 = outDir c := by
    intro c m e he
    obtain ⟨k, -, hk⟩ := passWrites_mem c 0 frames m e he
    rw [hk, dirname_outPath]
  refine ⟨w1, w2, _, _, e1, a1, e2, a2, hd c1 _, hd c2 _, fun h => hc (outDir_injective h), ?_,
    dirname_outPath, fun h => ?_, fun h => ?_, fun h => ?_⟩
  · intro x hx y hy hxy
    apply hc
    apply outDir_injective
    rw [← hd c1 _ x hx, ← hd c2 _ y hy, hxy]
  · exact absurd (outDir_injective h) (by decide)
  · exact absurd (outDir_injective h) (by decide)
  · exact absurd (outDir_injective h) (by decide)

/-- Witness for C6: the passes for channels 0 and 1 on a one-frame video. -/
theorem C6_directory_per_channel_witness :
    (fsOf [px] "video" = some [px] ∧ (0 : Nat) ≠ 1) ∧
    ∃ w1 w2 ws1 ws2, passBody (fsOf [px]) "video" 0 worldStart = Outcome.returned w1 ∧
      imwrites w1.log = imwrites worldStart.log ++ ws1 ∧
      passBody (fsOf [px]) "video" 1 worldAfterOne = Outcome.returned w2 ∧
      imwrites w2.log = imwrites worldAfterOne.log ++ ws2 ∧
      (∀ e ∈ ws1, dirname e.1 = outDir 0) ∧
      (∀ e ∈ ws2, dirname e.1 = outDir 1) ∧
      outDir 0 ≠ outDir 1 ∧
      (∀ e1 ∈ ws1, ∀ e2 ∈ ws2, e1.1 ≠ e2.1) ∧
      (∀ c n, dirname (outPath c n) = outDir c) ∧
      outDir 0 ≠ outDir 1 ∧ outDir 0 ≠ outDir 2 ∧ outDir 1 ≠ outDir 2 :=
  ⟨⟨rfl, by decide⟩,
    C6_directory_per_channel (fsOf [px]) "video" [px] rfl 0 1 (by decide) worldStart
      worldAfterOne⟩

/-- C7: for every file system, path, channel and state, a pass ends in some state, and running
the pass for the same channel again from that state, with the same pending key codes as the
first run, ends in a state whose disk is exactly the disk the first run left. -/
theorem C7_rerun_leaves_disk_unchanged (fs : String → Option (List (Mat BGR)))
    (file_path : String) (chan : Nat) (w : World) :
    ∃ w1, (passBody fs file_path chan w).world? = some w1 ∧
      ∃ w2, (passBody fs file_path chan { w1 with keys := w.keys }).world? = some w2 ∧
        w2.disk = w1.disk := by
  cases hfs : fs file_path with
  | none =>
    obtain ⟨w1, e1, -⟩ := passBody_unopenable_world fs file_path hfs chan w
    obtain ⟨w2, e2, d2⟩ := passBody_unopenable_world fs file_path hfs chan
      { w1 with keys := w.keys }
    exact ⟨w1, e1, w2, e2, d2⟩
  | some frames =>
    obtain ⟨w1, e1, -, -, -, -, d1, -⟩ := passBody_spec fs file_path frames hfs chan w
    obtain ⟨w2, e2, -, -, -, -, d2, -⟩ := passBody_spec fs file_path frames hfs chan
      { w1 with keys := w.keys }
    dsimp only at d2
    refine ⟨w1, by rw [e1]; rfl, w2, by rw [e2]; rfl, ?_⟩
    rw [d2, d1, applyWrites_idem]

/-- C8: the rasters written by a pass are the luma conversions `cvtColor_BGR2GRAY` of the frames
it handled, in order, whatever the channel.  For two passes for channels `c1` and `c2`, the
writes with the same index carry the same raster and differ only in the path, which names the
channel; when both passes see the same key codes they write the same sequence of rasters. -/
theorem C8_grayscale_ignores_channel (fs : String → Option (List (Mat BGR)))
    (file_path : String) (frames : List (Mat BGR)) (hfs : fs file_path = some frames)
    (c1 c2 : Nat) (wa wb : World) :
    ∃ w1 w2 ws1 ws2, passBody fs file_path c1 wa = Outcome.returned w1 ∧
      imwrites w1.log = imwrites wa.log ++ ws1 ∧
      passBody fs file_path c2 wb = Outcome.returned w2 ∧
      imwrites w2.log = imwrites wb.log ++ ws2 ∧
      ws1.map Prod.snd = (frames.take ws1.length).map cvtColor_BGR2GRAY ∧
      ws2.map Prod.snd = (frames.take ws2.length).map cvtColor_BGR2GRAY ∧
      (∀ k e1 e2, ws1[k]? = some e1 → ws2[k]? = some e2 →
        e1.2 = e2.2 ∧ e1.1 = outPath c1 (k % UINT_RANGE) ∧
          e2.1 = outPath c2 (k % UINT_RANGE)) ∧
      (wa.keys = wb.keys → ws1.map Prod.snd = ws2.map Prod.snd) := by
  obtain ⟨w1, e1, -, -, a1, -, -, -⟩ := passBody_spec fs file_path frames hfs c1 wa
  obtain ⟨w2, e2, -, -, a2, -, -, -⟩ := passBody_spec fs file_path frames hfs c2 wb
  have hcont : ∀ (c : Nat) (keys : List Int),
      (passWrites c 0 frames (completed frames keys)).map Prod.snd =
        (frames.take (passWrites c 0 frames (completed frames keys)).length).map
          cvtColor_BGR2GRAY := by
    intro c keys
    rw [passWrites_length]
    exact passWrites_contents c 0 frames _ (completed_le_length frames keys)
  refine ⟨w1, w2, _, _, e1, a1, e2, a2, hcont c1 _, hcont c2 _, ?_, ?_⟩
  · intro k x y hx hy
    obtain ⟨-, rfl⟩ := passWrites_getElem? _ _ _ _ _ _ hx
    obtain ⟨-, rfl⟩ := passWrites_getElem? _ _ _ _ _ _ hy
    simp only [incr_iterate_zero, and_self]
  · intro hk
    rw [hcont c1, hcont c2, passWrites_length, passWrites_length, hk]

/-- Witness for C8: the passes for channels 0 and 2 on a two-frame video. -/
theorem C8_grayscale_ignores_channel_witness :
    fsOf [px, px] "video" = some [px, px] ∧
    ∃ w1 w2 ws1 ws2, passBody (fsOf [px, px]) "video" 0 worldStart = Outcome.returned w1 ∧
      imwrites w1.log = imwrites worldStart.log ++ ws1 ∧
      passBody (fsOf [px, px]) "video" 2 worldStart = Outcome.returned w2 ∧
      imwrites w2.log = imwrites worldStart.log ++ ws2 ∧
      ws1.map Prod.snd = ([px, px].take ws1.length).map cvtColor_BGR2GRAY ∧
      ws2.map Prod.snd = ([px, px].take ws2.length).map cvtColor_BGR2GRAY ∧
      (∀ k e1 e2, ws1[k]? = some e1 → ws2[k]? = some e2 →
        e1.2 = e2.2 ∧ e1.1 = outPath 0 (k % UINT_RANGE) ∧
          e2.1 = outPath 2 (k % UINT_RANGE)) ∧
      (worldStart.keys = worldStart.keys → ws1.map Prod.snd = ws2.map Prod.snd) :=
  ⟨rfl, C8_grayscale_ignores_channel (fsOf [px, px]) "video" [px, px] rfl 0 2 worldStart
    worldStart⟩

/-- C9 (as amended): for an openable video of fewer than `2 ^ 32` frames, in the pass for any
channel entered from any state, the frame counter is 0 before the first iteration; every further
iteration leaves it unchanged or increases it by one; after any number of iterations it equals
the number of image writes made so far in the pass; and the pass returns in the state reached
after at most `F + 1` iterations. -/
theorem C9_counter_counts_writes (fs : String → Option (List (Mat BGR))) (file_path : String)
    (frames : List (Mat BGR)) (hfs : fs file_path = some frames)
    (hF : frames.length < UINT_RANGE) (chan : Nat) (w : World) (n : Nat) :
    (loopStateAt fs file_path chan w 0).world.frame_num = 0 ∧
    ((loopStateAt fs file_path chan w (n + 1)).world.frame_num =
        (loopStateAt fs file_path chan w n).world.frame_num ∨
      (loopStateAt fs file_path chan w (n + 1)).world.frame_num =
        (loopStateAt fs file_path chan w n).world.frame_num + 1) ∧
    (imwrites (loopStateAt fs file_path chan w n).world.log).length =
      (imwrites w.log).length + (loopStateAt fs file_path chan w n).world.frame_num ∧
    passBody fs file_path chan w =
      Outcome.returned (loopStateAt fs file_path chan w (frames.length + 1)).world := by
  have hm := completed_le_length frames w.keys
  obtain ⟨f0, -⟩ := loopStateAt_spec fs file_path frames hfs chan w 0
  obtain ⟨f1, a1⟩ := loopStateAt_spec fs file_path frames hfs chan w n
  obtain ⟨f2, -⟩ := loopStateAt_spec fs file_path frames hfs chan w (n + 1)
  rw [incr_iterate_zero] at f0 f1 f2
  rw [Nat.mod_eq_of_lt (by omega)] at f1 f2
  refine ⟨?_, ?_, ?_, passBody_eq_loopStateAt fs file_path frames hfs chan w⟩
  · rw [f0]
    simp
  · rw [f1, f2]
    omega
  · rw [a1, f1, List.length_append, passWrites_length]

/-- Witness for C9: the second iteration of the pass for channel 0 on a two-frame video. -/
theorem C9_counter_counts_writes_witness :
    (fsOf [px, px] "video" = some [px, px] ∧ [px, px].length < UINT_RANGE) ∧
    ((loopStateAt (fsOf [px, px]) "video" 0 worldStart 0).world.frame_num = 0 ∧
    ((loopStateAt (fsOf [px, px]) "video" 0 worldStart (1 + 1)).world.frame_num =
        (loopStateAt (fsOf [px, px]) "video" 0 worldStart 1).world.frame_num ∨
      (loopStateAt (fsOf [px, px]) "video" 0 worldStart (1 + 1)).world.frame_num =
        (loopStateAt (fsOf [px, px]) "video" 0 worldStart 1).world.frame_num + 1) ∧
    (imwrites (loopStateAt (fsOf [px, px]) "video" 0 worldStart 1).world.log).length =
      (imwrites worldStart.log).length +
        (loopStateAt (fsOf [px, px]) "video" 0 worldStart 1).world.frame_num ∧
    passBody (fsOf [px, px]) "video" 0 worldStart =
      Outcome.returned
        (loopStateAt (fsOf [px, px]) "video" 0 worldStart ([px, px].length + 1)).world) :=
  ⟨⟨rfl, by decide⟩,
    C9_counter_counts_writes (fsOf [px, px]) "video" [px, px] rfl (by decide) 0 worldStart 1⟩

/-- C9 (as stated, refuted): on a video of `2 ^ 32` frames with no key pressed, in the first
pass the counter is `2 ^ 32 - 1` after `2 ^ 32 - 1` iterations and 0 after `2 ^ 32` iterations,
when `2 ^ 32` images have been written: that iteration decreases the counter, and the counter no
longer equals the number of writes. -/
theorem C9_counterexample_counter_wraps :
    (loopStateAt (fsOf (List.replicate 4294967296 px)) "video" 0 worldStart
        4294967295).world.frame_num = 4294967295 ∧
    (loopStateAt (fsOf (List.replicate 4294967296 px)) "video" 0 worldStart
        4294967296).world.frame_num = 0 ∧
    (imwrites (loopStateAt (fsOf (List.replicate 4294967296 px)) "video" 0 worldStart
        4294967296).world.log).length = 4294967296 ∧
    ¬ ((loopStateAt (fsOf (List.replicate 4294967296 px)) "video" 0 worldStart
          (4294967295 + 1)).world.frame_num =
        (loopStateAt (fsOf (List.replicate 4294967296 px)) "video" 0 worldStart
          4294967295).world.frame_num ∨
      (loopStateAt (fsOf (List.replicate 4294967296 px)) "video" 0 worldStart
          (4294967295 + 1)).world.frame_num =
        (loopStateAt (fsOf (List.replicate 4294967296 px)) "video" 0 worldStart
          4294967295).world.frame_num + 1) := by
  have h1 := (loopStateAt_replicate 4294967296 4294967295 (by decide)).1.trans
    (show 4294967295 % UINT_RANGE = 4294967295 by decide)
  have h2 := (loopStateAt_replicate 4294967296 4294967296 (by decide)).1.trans
    (show 4294967296 % UINT_RANGE = 0 by decide)
  have h3 := (loopStateAt_replicate 4294967296 4294967296 (by decide)).2
  have h4 := (loopStateAt_replicate 4294967296 (4294967295 + 1) (by decide)).1.trans
    (show (4294967295 + 1) % UINT_RANGE = 0 by decide)
  refine ⟨h1, h2, h3, ?_⟩
  rw [h4, h1]
  decide

/-- C10: for an openable video of at most `2 ^ 32` frames, the paths written during one pass are
pairwise distinct: the path is injective in the frame number, and the numbers used in one pass
stay below `2 ^ 32`.  The counter is taken modulo `2 ^ 32`: incrementing `2 ^ 32 - 1` gives 0. -/
theorem C10_paths_distinct_within_pass (fs : String → Option (List (Mat BGR)))
    (file_path : String) (frames : List (Mat BGR)) (hfs : fs file_path = some frames)
    (hF : frames.length ≤ UINT_RANGE) (chan : Nat) (w : World) :
    ∃ w1 ws, passBody fs file_path chan w = Outcome.returned w1 ∧
      imwrites w1.log = imwrites w.log ++ ws ∧
      (ws.map Prod.fst).Nodup ∧
      Function.Injective (outPath chan) ∧
      incr 4294967295 = 0 := by
  obtain ⟨w1, e1, -, -, a1, -, -, -⟩ := passBody_spec fs file_path frames hfs chan w
  refine ⟨w1, _, e1, a1, ?_, outPath_injective chan, by decide⟩
  have hm := completed_le_length frames w.keys
  simp only [passWrites, List.map_map]
  refine List.Nodup.map_on ?_ (List.nodup_range _)
  intro x hx y hy hxy
  have hx1 : x < completed frames w.keys := List.mem_range.mp hx
  have hy1 : y < completed frames w.keys := List.mem_range.mp hy
  simp only [Function.comp_apply, incr_iterate_zero] at hxy
  have := outPath_injective chan hxy
  rwa [Nat.mod_eq_of_lt (by omega), Nat.mod_eq_of_lt (by omega)] at this

/-- Witness for C10: the pass for channel 1 on a two-frame video. -/
theorem C10_paths_distinct_within_pass_witness :
    (fsOf [px, px] "video" = some [px, px] ∧ [px, px].length ≤ UINT_RANGE) ∧
    ∃ w1 ws, passBody (fsOf [px, px]) "video" 1 worldStart = Outcome.returned w1 ∧
      imwrites w1.log = imwrites worldStart.log ++ ws ∧
      (ws.map Prod.fst).Nodup ∧
      Function.Injective (outPath 1) ∧
      incr 4294967295 = 0 :=
  ⟨⟨rfl, by decide⟩,
    C10_paths_distinct_within_pass (fsOf [px, px]) "video" [px, px] rfl (by decide) 1
      worldStart⟩

end Rgb2GraySlicer
